import Mathlib

/-!
Verification of the caption placement and rendering engine of the
photo-tagger application (source: src/ui/App.tsx).

The TypeScript code is shallowly embedded: JS numbers are modelled as
rationals, and browser facilities that the code consumes (2D text
measurement contexts, canvas pixel readback after downsampling, Math.sqrt,
base64 decoding) are modelled as explicit oracle parameters, so every
theorem quantifies over what the environment may return.
-/

namespace PhotoTagger

/-- JS Math.max on two numbers, written with an executable comparison so
concrete runs reduce in the kernel. -/
def jmax (a b : ℚ) : ℚ := if a ≤ b then b else a

/-- JS Math.min on two numbers. -/
def jmin (a b : ℚ) : ℚ := if b ≤ a then b else a

lemma jmax_eq (a b : ℚ) : jmax a b = max a b := by
  unfold jmax
  split
  · exact (max_eq_right (by assumption)).symm
  · exact (max_eq_left (le_of_not_le (by assumption))).symm

lemma jmin_eq (a b : ℚ) : jmin a b = min a b := by
  unfold jmin
  split
  · exact (min_eq_right (by assumption)).symm
  · exact (min_eq_left (le_of_not_le (by assumption))).symm

/-- JS Math.round: round half toward positive infinity. -/
def jsRound (q : ℚ) : ℤ := (q + 1/2).floor

/-- Source (App.tsx:324):
clampNormalized = (v, margin = 0.01) => Math.max(margin, Math.min(1 - margin, v)).
The default margin 0.01 is written explicitly at call sites. -/
def clampNormalized (v margin : ℚ) : ℚ := jmax margin (jmin (1 - margin) v)

lemma clampNormalized_eq (v margin : ℚ) :
    clampNormalized v margin = max margin (min (1 - margin) v) := by
  rw [clampNormalized, jmax_eq, jmin_eq]

/-! ## Caption sanitizer (App.tsx:438-450)

The sanitizer applies five JS global regex replaces in order:
1. `/<br\s*>/gi`            -> `<br/>`
2. `/<(?!\/?(b|strong|i|em|small|br)\b)[^>]*>/gi` -> `` (strip)
3. `/<(b|strong|i|em|small)(\s+[^>]*)?>/gi`       -> `<$1>`
4. `/<\/(b|strong|i|em|small)>/gi`                -> `</$1>`
5. `/<br[^>]*>/gi`          -> `<br/>`
A JS global replace finds non-overlapping matches left to right in the
input and does not rescan its own replacements; `scanWith` mirrors that. -/

/-- JS regex `\s`: the whitespace class of ECMAScript
([\f\n\r\t\v    -     　﻿]). -/
def isJsWs (c : Char) : Bool :=
  c == ' ' || c == '\t' || c == '\n' || c == '\r' || c == '\x0b' || c == '\x0c' ||
  c == ' ' || c == ' ' || (' ' ≤ c && c ≤ ' ') ||
  c == ' ' || c == ' ' || c == ' ' || c == ' ' ||
  c == '　' || c == '﻿'

/-- JS regex `\w` (for the word boundary `\b`): [A-Za-z0-9_]. -/
def isWordChar (c : Char) : Bool :=
  ('a' ≤ c && c ≤ 'z') || ('A' ≤ c && c ≤ 'Z') || ('0' ≤ c && c ≤ '9') || c == '_'

/-- Case-insensitive character comparison (the regexes carry the `i` flag). -/
def ciEq (c d : Char) : Bool := c.toLower == d.toLower

/-- Match a literal word case-insensitively; returns the rest of the input. -/
def matchCI : List Char → List Char → Option (List Char)
  | [], l => some l
  | _ :: _, [] => none
  | p :: ps, c :: cs => if ciEq c p then matchCI ps cs else none

/-- Like `matchCI` but also returns the matched input characters in their
original case (the `$1` capture of replaces 3 and 4). -/
def matchCIKeep : List Char → List Char → Option (List Char × List Char)
  | [], l => some ([], l)
  | _ :: _, [] => none
  | p :: ps, c :: cs =>
    if ciEq c p then (matchCIKeep ps cs).map (fun x => (c :: x.1, x.2)) else none

/-- Consume `[^>]*>` : everything up to and including the first `>`.
Returns the rest after that `>`; `none` when no `>` remains. -/
def untilGt : List Char → Option (List Char)
  | [] => none
  | '>' :: rest => some rest
  | _ :: rest => untilGt rest

/-- The whitelist words of the lookahead in replace 2, in the regex's
alternation order. -/
def wlWords : List (List Char) :=
  ["b".data, "strong".data, "i".data, "em".data, "small".data, "br".data]

/-- `(b|strong|i|em|small|br)\b` at the head of `l`. -/
def wlLookaheadCore (l : List Char) : Bool :=
  wlWords.any fun w =>
    match matchCI w l with
    | some [] => true
    | some (c :: _) => !isWordChar c
    | none => false

/-- The lookahead `\/?(b|strong|i|em|small|br)\b` of replace 2, applied to
the text after `<`. -/
def wlLookahead (l : List Char) : Bool :=
  match l with
  | '/' :: rest => wlLookaheadCore rest
  | _ => wlLookaheadCore l

/-- Replace 1 matcher: `<br\s*>` (after the initial `<`). -/
def r1core (rest : List Char) : Option (List Char × List Char) :=
  match rest with
  | b :: r :: rest2 =>
    if ciEq b 'b' && ciEq r 'r' then
      match rest2.dropWhile isJsWs with
      | '>' :: rest3 => some ("<br/>".data, rest3)
      | _ => none
    else none
  | _ => none

def m1 : List Char → Option (List Char × List Char)
  | [] => none
  | c :: rest => if c = '<' then r1core rest else none

/-- Replace 2 matcher: `<(?!\/?(b|strong|i|em|small|br)\b)[^>]*>`,
replaced by the empty string. -/
def r2core (rest : List Char) : Option (List Char × List Char) :=
  if wlLookahead rest then none
  else
    match untilGt rest with
    | some rest' => some ([], rest')
    | none => none

def m2 : List Char → Option (List Char × List Char)
  | [] => none
  | c :: rest => if c = '<' then r2core rest else none

/-- Replace 3, attribute part for one alternation word: after the word,
`(\s+[^>]*)?>` — either `>` immediately, or at least one whitespace
character and then everything up to the first `>`. -/
def m3Attr (w : List Char) (rest : List Char) : Option (List Char × List Char) :=
  match matchCIKeep w rest with
  | none => none
  | some (cap, rem) =>
    match rem with
    | '>' :: rest' => some ('<' :: (cap ++ ['>']), rest')
    | c :: _ =>
      if isJsWs c then
        match untilGt rem with
        | some rest' => some ('<' :: (cap ++ ['>']), rest')
        | none => none
      else none
    | [] => none

def m3Go : List (List Char) → List Char → Option (List Char × List Char)
  | [], _ => none
  | w :: ws, rest =>
    match m3Attr w rest with
    | some res => some res
    | none => m3Go ws rest

/-- Replace 3 matcher: `<(b|strong|i|em|small)(\s+[^>]*)?>` -> `<$1>`. -/
def m3 : List Char → Option (List Char × List Char)
  | [] => none
  | c :: rest =>
    if c = '<' then m3Go ["b".data, "strong".data, "i".data, "em".data, "small".data] rest
    else none

def m4Go : List (List Char) → List Char → Option (List Char × List Char)
  | [], _ => none
  | w :: ws, rest =>
    match matchCIKeep w rest with
    | some (cap, '>' :: rest') => some ('<' :: '/' :: (cap ++ ['>']), rest')
    | _ => m4Go ws rest

/-- Replace 4 matcher: `<\/(b|strong|i|em|small)>` -> `</$1>` (which
reproduces the matched text verbatim). -/
def m4 : List Char → Option (List Char × List Char)
  | [] => none
  | c :: rest =>
    if c = '<' then
      match rest with
      | '/' :: rest2 => m4Go ["b".data, "strong".data, "i".data, "em".data, "small".data] rest2
      | _ => none
    else none

/-- Replace 5 matcher: `<br[^>]*>` -> `<br/>`. -/
def r5core (rest : List Char) : Option (List Char × List Char) :=
  match rest with
  | b :: r :: rest2 =>
    if ciEq b 'b' && ciEq r 'r' then
      match untilGt rest2 with
      | some rest' => some ("<br/>".data, rest')
      | none => none
    else none
  | _ => none

def m5 : List Char → Option (List Char × List Char)
  | [] => none
  | c :: rest => if c = '<' then r5core rest else none

/-- One JS global replace: scan left to right, at each position try the
matcher; on a match emit the replacement and continue after the matched
text, otherwise keep the character. Every match consumes at least one
character, so fuel equal to the input length always suffices. -/
def scanWith (m : List Char → Option (List Char × List Char)) : Nat → List Char → List Char
  | 0, l => l
  | _ + 1, [] => []
  | fuel + 1, c :: rest =>
    match m (c :: rest) with
    | some (rep, rest') => rep ++ scanWith m fuel rest'
    | none => c :: scanWith m fuel rest

def sanitizePass (m : List Char → Option (List Char × List Char)) (l : List Char) : List Char :=
  scanWith m l.length l

/-- Source `sanitizeCaptionHtml` (App.tsx:438-450): the five replaces in
order. On the empty string the source returns '' directly, which the
passes also give. -/
def sanitizeCaptionHtml (s : String) : String :=
  String.mk (sanitizePass m5 (sanitizePass m4 (sanitizePass m3
    (sanitizePass m2 (sanitizePass m1 s.data)))))

example : sanitizeCaptionHtml ("<script>alert(1)</script>") = "alert(1)" := by decide
example : sanitizeCaptionHtml ("<b onclick=x>hi</b>") = "<b>hi</b>" := by decide
example : sanitizeCaptionHtml ("<br >") = "<br/>" := by decide

/-- Claim C1. The spec says: for every input, the only remaining markup
tags are whitelisted and carry no attributes, and in particular an input
containing an img tag with an onerror attribute yields output containing
neither. The code violates this: stripping the non-whitelisted tag x from
the input below joins the surrounding pieces into a complete img tag whose
onerror attribute survives every later pass verbatim, contradicting the
source's own comment that the sanitizer is safe and allows only
b, strong, i, em, small and br. -/
theorem C1_sanitizer_img_onerror_escapes :
    sanitizeCaptionHtml ("<i<x>mg src=x onerror=alert(1)>") = "<img src=x onerror=alert(1)>" := by
  decide

/-- Claim C4. The spec demands sanitize to be idempotent. The code is not:
on the input below one application yields a string holding a (non-white-
listed) tag bq that a second application deletes, a direct consequence of
the single-pass tag-joining bug of C1. -/
theorem C4_sanitize_not_idempotent :
    sanitizeCaptionHtml ("<b<x>q>") = "<bq>" ∧
    sanitizeCaptionHtml (sanitizeCaptionHtml ("<b<x>q>")) = "" ∧
    sanitizeCaptionHtml (sanitizeCaptionHtml ("<b<x>q>")) ≠ sanitizeCaptionHtml ("<b<x>q>") := by
  decide

/-! ## Text metrics and the deterministic clamp solver (App.tsx:327-411) -/

/-- The nine symbolic caption anchors. -/
inductive Anchor
  | tl | tc | tr | cl | cc | cr | bl | bc | br
deriving DecidableEq, Repr

/-- What a 2D context's measureText reports; zero in the bounding-box
fields models a falsy (absent) metric, triggering the source's fallback. -/
structure TextMetrics where
  width : ℚ
  actualBoundingBoxAscent : ℚ
  actualBoundingBoxDescent : ℚ
deriving DecidableEq

/-- Oracle for a 2D measurement context: the source feeds it the text, the
effective font weight and the font pixel size (via ctx.font), and reads
back metrics. -/
abbrev MeasureCtx := String → ℚ → ℚ → TextMetrics

/-- Source anchorOffset (App.tsx:361-374); the source's default case is
its bc case. -/
def anchorOffset (aw ah : ℚ) : Anchor → ℚ × ℚ
  | .tl => (0, 0)
  | .tc => (aw / 2, 0)
  | .tr => (aw, 0)
  | .cl => (0, ah / 2)
  | .cc => (aw / 2, ah / 2)
  | .cr => (aw, ah / 2)
  | .bl => (0, ah)
  | .br => (aw, ah)
  | .bc => (aw / 2, ah)

/-- The argument object of measureAndPlaceCaption; optional fields carry
the source's destructuring defaults (bc, 5, 700, 1.5). -/
structure PlaceArgs where
  text : String
  preferredX : ℚ
  preferredY : ℚ
  preferredAnchor : Option Anchor
  preferredSizePct : Option ℚ
  weight : Option ℚ
  marginPct : Option ℚ
  stageWidth : ℚ
  stageHeight : ℚ

structure PlaceOut where
  x : ℚ
  y : ℚ
  sizePct : ℚ
  anchor : Anchor
deriving DecidableEq, Repr

/-- The values fixed for the whole run of the source's fitLoop. -/
structure FitEnv where
  ctx : MeasureCtx
  text : String
  preferredX : ℚ
  preferredY : ℚ
  anchor : Anchor
  preferredSizePct : ℚ
  weightEff : ℚ
  marginPct : ℚ
  marginPx : ℚ
  W : ℚ
  H : ℚ
  maxSide : ℚ

/-- One fit-loop iteration's font pixel size (App.tsx:378). -/
def fitFontPx (e : FitEnv) (sizePct : ℚ) : ℚ :=
  jmax 10 ((jsRound (sizePct / 100 * e.maxSide) : ℤ) : ℚ)

/-- The measured text width (App.tsx:380-381). -/
def fitTextWidth (e : FitEnv) (sizePct : ℚ) : ℚ :=
  (e.ctx e.text e.weightEff (fitFontPx e sizePct)).width

/-- The measured text height: ascent plus descent with the source's falsy
fallbacks (App.tsx:382-384). -/
def fitTextHeight (e : FitEnv) (sizePct : ℚ) : ℚ :=
  let fontPx := fitFontPx e sizePct
  let metrics := e.ctx e.text e.weightEff fontPx
  let ascent := jmax (if metrics.actualBoundingBoxAscent = 0 then fontPx * 0.8
    else metrics.actualBoundingBoxAscent) 1
  let descent := jmax (if metrics.actualBoundingBoxDescent = 0 then fontPx * 0.2
    else metrics.actualBoundingBoxDescent) 1
  ascent + descent

/-- The margin-clamped top-left pixel position (App.tsx:386-394). -/
def fitPx (e : FitEnv) (sizePct : ℚ) : ℚ × ℚ :=
  let textWidth := fitTextWidth e sizePct
  let textHeight := fitTextHeight e sizePct
  let off := anchorOffset textWidth textHeight e.anchor
  let px0 := e.preferredX * e.W - off.1
  let py0 := e.preferredY * e.H - off.2
  let px1 := if px0 < e.marginPx then e.marginPx else px0
  let py1 := if py0 < e.marginPx then e.marginPx else py0
  let px2 := if px1 + textWidth > e.W - e.marginPx then
      jmax e.marginPx (e.W - e.marginPx - textWidth) else px1
  let py2 := if py1 + textHeight > e.H - e.marginPx then
      jmax e.marginPx (e.H - e.marginPx - textHeight) else py1
  (px2, py2)

/-- The successful-fit return value (App.tsx:403-405). -/
def fitSuccess (e : FitEnv) (sizePct : ℚ) : PlaceOut :=
  let off := anchorOffset (fitTextWidth e sizePct) (fitTextHeight e sizePct) e.anchor
  { x := clampNormalized (((fitPx e sizePct).1 + off.1) / e.W) (e.marginPct / 100),
    y := clampNormalized (((fitPx e sizePct).2 + off.2) / e.H) (e.marginPct / 100),
    sizePct := sizePct, anchor := e.anchor }

/-- The post-loop fallback return (App.tsx:407). -/
def fitFallback (e : FitEnv) : PlaceOut :=
  { x := clampNormalized e.preferredX (1/100), y := clampNormalized e.preferredY (1/100),
    sizePct := jmax 1 (e.preferredSizePct * 0.7), anchor := e.anchor }

/-- Source fitLoop (App.tsx:376-408) with its iteration budget as fuel (12
at the call) and the number of executed iterations returned alongside the
placement. Fuel 0 is the loop's post-loop fallback return. -/
def fitLoop (e : FitEnv) : Nat → ℚ → PlaceOut × Nat
  | 0, _ => (fitFallback e, 0)
  | fuel + 1, sizePct =>
    if fitTextWidth e sizePct ≤ e.W - 2 * e.marginPx ∧
        fitTextHeight e sizePct ≤ e.H - 2 * e.marginPx then
      (fitSuccess e sizePct, 1)
    else
      let r := fitLoop e fuel (jmax 1 (sizePct * 0.9))
      (r.1, r.2 + 1)

/-- Source measureAndPlaceCaption (App.tsx:327-411): destructuring
defaults, margin computation, the context-unavailable early return, and
the fit loop with its 12-iteration budget. The second component counts
fit-loop iterations. -/
def measureAndPlaceCaptionAux (ctx : Option MeasureCtx) (a : PlaceArgs) : PlaceOut × Nat :=
  let preferredAnchor := a.preferredAnchor.getD .bc
  let preferredSizePct := a.preferredSizePct.getD 5
  let weight := a.weight.getD 700
  let marginPct := a.marginPct.getD 1.5
  let maxSide := jmax a.stageWidth a.stageHeight
  let marginPx := marginPct / 100 * maxSide
  match ctx with
  | none =>
    ({ x := clampNormalized a.preferredX (1/100), y := clampNormalized a.preferredY (1/100),
       sizePct := preferredSizePct, anchor := preferredAnchor }, 0)
  | some c =>
    fitLoop
      { ctx := c, text := a.text, preferredX := a.preferredX, preferredY := a.preferredY,
        anchor := preferredAnchor, preferredSizePct := preferredSizePct,
        weightEff := if weight = 0 then 700 else weight,
        marginPct := marginPct, marginPx := marginPx,
        W := a.stageWidth, H := a.stageHeight, maxSide := maxSide }
      12 preferredSizePct

def measureAndPlaceCaption (ctx : Option MeasureCtx) (a : PlaceArgs) : PlaceOut :=
  (measureAndPlaceCaptionAux ctx a).1

lemma clampNormalized_mem (v m : ℚ) (h1 : m ≤ 1/2) :
    m ≤ clampNormalized v m ∧ clampNormalized v m ≤ 1 - m := by
  rw [clampNormalized_eq]
  exact ⟨le_max_left _ _, max_le (by linarith) (min_le_left _ _)⟩

lemma fitLoop_x_y_bounds (e : FitEnv) (h1 : e.marginPct ≤ 50) :
    ∀ fuel sizePct,
      (min (e.marginPct / 100) (1/100) ≤ (fitLoop e fuel sizePct).1.x ∧
        (fitLoop e fuel sizePct).1.x ≤ 1 - min (e.marginPct / 100) (1/100)) ∧
      (min (e.marginPct / 100) (1/100) ≤ (fitLoop e fuel sizePct).1.y ∧
        (fitLoop e fuel sizePct).1.y ≤ 1 - min (e.marginPct / 100) (1/100)) := by
  have hm1 : e.marginPct / 100 ≤ 1/2 := by linarith
  have hminl : min (e.marginPct / 100) (1/100) ≤ e.marginPct / 100 := min_le_left _ _
  have hminr : min (e.marginPct / 100) (1/100) ≤ 1/100 := min_le_right _ _
  intro fuel
  induction fuel with
  | zero =>
    intro s
    have hx := clampNormalized_mem e.preferredX (1/100) (by norm_num)
    have hy := clampNormalized_mem e.preferredY (1/100) (by norm_num)
    simp only [fitLoop, fitFallback]
    exact ⟨⟨le_trans hminr hx.1, by linarith [hx.2]⟩,
           ⟨le_trans hminr hy.1, by linarith [hy.2]⟩⟩
  | succ n ih =>
    intro s
    rw [fitLoop]
    split
    · have hx := clampNormalized_mem (((fitPx e s).1 +
        (anchorOffset (fitTextWidth e s) (fitTextHeight e s) e.anchor).1) / e.W)
        (e.marginPct / 100) hm1
      have hy := clampNormalized_mem (((fitPx e s).2 +
        (anchorOffset (fitTextWidth e s) (fitTextHeight e s) e.anchor).2) / e.H)
        (e.marginPct / 100) hm1
      simp only [fitSuccess]
      exact ⟨⟨le_trans hminl hx.1, by linarith [hx.2]⟩,
             ⟨le_trans hminl hy.1, by linarith [hy.2]⟩⟩
    · simpa using ih (jmax 1 (s * 0.9))

lemma fitLoop_iters_le (e : FitEnv) : ∀ fuel sizePct, (fitLoop e fuel sizePct).2 ≤ fuel := by
  intro fuel
  induction fuel with
  | zero => intro s; simp [fitLoop]
  | succ n ih =>
    intro s
    rw [fitLoop]
    split
    · simp
    · have := ih (jmax 1 (s * 0.9))
      simpa using Nat.succ_le_succ this

/-- Shared bound: every return path of measureAndPlaceCaption clamps both
coordinates, the successful fit path with marginPct/100 and the two
fallback paths with the fixed default 0.01. -/
lemma measureAndPlaceCaption_bounds (ctx : Option MeasureCtx) (a : PlaceArgs)
    (_h0 : 0 ≤ a.marginPct.getD 1.5) (h1 : a.marginPct.getD 1.5 ≤ 50) :
    (min (a.marginPct.getD 1.5 / 100) (1/100) ≤ (measureAndPlaceCaption ctx a).x ∧
      (measureAndPlaceCaption ctx a).x ≤ 1 - min (a.marginPct.getD 1.5 / 100) (1/100)) ∧
    (min (a.marginPct.getD 1.5 / 100) (1/100) ≤ (measureAndPlaceCaption ctx a).y ∧
      (measureAndPlaceCaption ctx a).y ≤ 1 - min (a.marginPct.getD 1.5 / 100) (1/100)) := by
  have hminr : min (a.marginPct.getD 1.5 / 100) (1/100) ≤ 1/100 := min_le_right _ _
  cases ctx with
  | none =>
    have hx := clampNormalized_mem a.preferredX (1/100) (by norm_num)
    have hy := clampNormalized_mem a.preferredY (1/100) (by norm_num)
    simp only [measureAndPlaceCaption, measureAndPlaceCaptionAux]
    exact ⟨⟨le_trans hminr hx.1, by linarith [hx.2]⟩,
           ⟨le_trans hminr hy.1, by linarith [hy.2]⟩⟩
  | some c =>
    simp only [measureAndPlaceCaption, measureAndPlaceCaptionAux]
    exact fitLoop_x_y_bounds _ h1 12 _

/-- The concrete request refuting C2 as stated: marginPct 5 but no
measurement context available. -/
def placeArgsNoCtx : PlaceArgs :=
  { text := "Hi", preferredX := 0, preferredY := 0, preferredAnchor := none,
    preferredSizePct := none, weight := none, marginPct := some 5,
    stageWidth := 1000, stageHeight := 800 }

/-- Claim C2, counterexample: with marginPct = 5 the margin is 0.05, but
on the no-context return path the code clamps with the fixed default
0.01, so the returned x is 0.01 < 0.05, violating margin less-or-equal x. -/
theorem C2_margin_counterexample :
    (measureAndPlaceCaption none placeArgsNoCtx).x = 1/100 ∧
    (measureAndPlaceCaption none placeArgsNoCtx).x < 5/100 := by
  constructor <;>
    norm_num [measureAndPlaceCaption, measureAndPlaceCaptionAux, placeArgsNoCtx,
      clampNormalized, jmax, jmin]

/-- Claim C2, amended: on the successful fit path the result is clamped to
the requested margin band, while the iteration-exhausted fallback and the
no-context path clamp with the fixed default 0.01; hence on every return
path both coordinates lie within the band of the smaller of the two
margins, and the per-request margin bound itself holds only when
marginPct is at most 1. -/
theorem C2_margin_amended (ctx : Option MeasureCtx) (a : PlaceArgs)
    (_h0 : 0 ≤ a.marginPct.getD 1.5) (h1 : a.marginPct.getD 1.5 ≤ 50) :
    (min (a.marginPct.getD 1.5 / 100) (1/100) ≤ (measureAndPlaceCaption ctx a).x ∧
      (measureAndPlaceCaption ctx a).x ≤ 1 - min (a.marginPct.getD 1.5 / 100) (1/100)) ∧
    (min (a.marginPct.getD 1.5 / 100) (1/100) ≤ (measureAndPlaceCaption ctx a).y ∧
      (measureAndPlaceCaption ctx a).y ≤ 1 - min (a.marginPct.getD 1.5 / 100) (1/100)) :=
  measureAndPlaceCaption_bounds ctx a _h0 h1

/-- A concrete context and request exercising C2's amended theorem. -/
def ctxConst : MeasureCtx := fun _ _ _ =>
  { width := 100, actualBoundingBoxAscent := 8, actualBoundingBoxDescent := 2 }

def placeArgsFit : PlaceArgs :=
  { text := "Hello", preferredX := 1/2, preferredY := 19/20, preferredAnchor := some .bc,
    preferredSizePct := some 10, weight := none, marginPct := some (3/2),
    stageWidth := 1000, stageHeight := 800 }

theorem C2_margin_amended_witness :
    (0 ≤ placeArgsFit.marginPct.getD 1.5 ∧ placeArgsFit.marginPct.getD 1.5 ≤ 50) ∧
    ((min (placeArgsFit.marginPct.getD 1.5 / 100) (1/100) ≤
        (measureAndPlaceCaption (some ctxConst) placeArgsFit).x ∧
      (measureAndPlaceCaption (some ctxConst) placeArgsFit).x ≤
        1 - min (placeArgsFit.marginPct.getD 1.5 / 100) (1/100)) ∧
     (min (placeArgsFit.marginPct.getD 1.5 / 100) (1/100) ≤
        (measureAndPlaceCaption (some ctxConst) placeArgsFit).y ∧
      (measureAndPlaceCaption (some ctxConst) placeArgsFit).y ≤
        1 - min (placeArgsFit.marginPct.getD 1.5 / 100) (1/100))) :=
  ⟨by constructor <;> norm_num [placeArgsFit],
   C2_margin_amended (some ctxConst) placeArgsFit (by norm_num [placeArgsFit])
     (by norm_num [placeArgsFit])⟩

/-- Claim C9: for any context and request the fit loop executes at most 12
iterations, and the solver's result is exactly what that bounded loop
returns (the loop's fallback when nothing fit), so it always returns. -/
theorem C9_fitloop_terminates (ctx : Option MeasureCtx) (a : PlaceArgs) :
    (measureAndPlaceCaptionAux ctx a).2 ≤ 12 ∧
    measureAndPlaceCaption ctx a = (measureAndPlaceCaptionAux ctx a).1 := by
  refine ⟨?_, rfl⟩
  cases ctx with
  | none => simp [measureAndPlaceCaptionAux]
  | some c =>
    simp only [measureAndPlaceCaptionAux]
    exact fitLoop_iters_le _ 12 _

/-! ## Region detail analyzer (App.tsx:577-612)

The source draws the image onto a canvas downsampled so its longer side is
at most 512, then reads pixel bytes back with getImageData. The canvas
dimensions follow the source arithmetic; the downsampled pixel values are
browser resampling output and enter as an oracle. Math.sqrt enters as an
oracle function as well (`jsSqrt` below is a concrete executable stand-in
agreeing with it on 0 and on perfect squares). -/

/-- One pixel's bytes as getImageData returns them. -/
structure RGB where
  r : ℕ
  g : ℕ
  b : ℕ
deriving DecidableEq

/-- A stage image plus the pixel contents of the downsampling canvas. -/
structure SampledImage where
  naturalWidth : ℚ
  naturalHeight : ℚ
  pixel : ℕ → ℕ → RGB

structure RectNorm where
  x : ℚ
  y : ℚ
  w : ℚ
  h : ℚ
deriving DecidableEq

structure RegionScore where
  detail : ℚ
  mean : ℚ
deriving DecidableEq, Repr

/-- Relative luminance of one pixel (App.tsx:600). -/
def luma (p : RGB) : ℚ := (0.2126 * p.r + 0.7152 * p.g + 0.0722 * p.b) / 255

/-- scale = Math.min(512 / Math.max(w, h), 1) (App.tsx:579). -/
def sampleScale (img : SampledImage) : ℚ :=
  jmin (512 / jmax img.naturalWidth img.naturalHeight) 1

/-- W = Math.max(1, Math.round(w * scale)) (App.tsx:580). -/
def sampleW (img : SampledImage) : ℕ :=
  (max 1 (jsRound (img.naturalWidth * sampleScale img))).toNat

def sampleH (img : SampledImage) : ℕ :=
  (max 1 (jsRound (img.naturalHeight * sampleScale img))).toNat

/-- rx = Math.max(0, Math.round(rect.x * W)) and friends
(App.tsx:588-591). -/
def regionRx (img : SampledImage) (rect : RectNorm) : ℕ :=
  (max 0 (jsRound (rect.x * sampleW img))).toNat

def regionRy (img : SampledImage) (rect : RectNorm) : ℕ :=
  (max 0 (jsRound (rect.y * sampleH img))).toNat

def regionRw (img : SampledImage) (rect : RectNorm) : ℕ :=
  (max 1 (jsRound (rect.w * sampleW img))).toNat

def regionRh (img : SampledImage) (rect : RectNorm) : ℕ :=
  (max 1 (jsRound (rect.h * sampleH img))).toNat

/-- The luminances of the getImageData(rx, ry, min(rw, W-rx), min(rh, H-ry))
region in row-major order (App.tsx:592-600). A non-positive requested
width or height gives no data, which the source's own count-is-zero guard
then answers. -/
def regionLumas (img : SampledImage) (rect : RectNorm) : List ℚ :=
  let W := sampleW img
  let H := sampleH img
  let rx := regionRx img rect
  let ry := regionRy img rect
  let gw := (min ((regionRw img rect : ℤ)) ((W : ℤ) - rx)).toNat
  let gh := (min ((regionRh img rect : ℤ)) ((H : ℤ) - ry)).toNat
  (List.range gh).flatMap fun j => (List.range gw).map fun i => luma (img.pixel (rx + i) (ry + j))

structure LumaStats where
  sum : ℚ
  sumSq : ℚ
  diffSum : ℚ
  count : ℕ
deriving DecidableEq

/-- The source's accumulation loop (App.tsx:593-606): lastL starts at -1,
and the running difference is only added once a previous sample exists. -/
def lumaLoop : List ℚ → ℚ → LumaStats → LumaStats
  | [], _, acc => acc
  | l :: rest, lastL, acc =>
    lumaLoop rest l
      { sum := acc.sum + l, sumSq := acc.sumSq + l * l,
        diffSum := acc.diffSum + (if 0 ≤ lastL then |l - lastL| else 0),
        count := acc.count + 1 }

/-- Source measureRegionDetail (App.tsx:577-612). `ctxOk = false` models
getContext returning null; `sq` models Math.sqrt. -/
def measureRegionDetail (sq : ℚ → ℚ) (ctxOk : Bool) (img : SampledImage)
    (rect : RectNorm) : RegionScore :=
  if ctxOk then
    let stats := lumaLoop (regionLumas img rect) (-1) ⟨0, 0, 0, 0⟩
    if stats.count = 0 then ⟨1, 1/2⟩
    else
      let count : ℚ := stats.count
      let mean := stats.sum / count
      let variance := jmax 0 (stats.sumSq / count - mean * mean)
      ⟨jmin 1 (sq variance + stats.diffSum / count), mean⟩
  else ⟨1, 1/2⟩

/-- Executable stand-in for Math.sqrt: exact at 0 and at perfect squares,
the floor approximation elsewhere. -/
def jsSqrt (q : ℚ) : ℚ :=
  if q ≤ 0 then 0 else (Nat.sqrt (q.num.toNat * q.den) : ℚ) / (q.den : ℚ)

lemma jsRound_zero : jsRound 0 = 0 := by
  have : jsRound 0 = ((0 : ℚ) + 1/2).floor := rfl
  rw [this, Rat.floor_def']
  norm_num

lemma sampleW_pos (img : SampledImage) : 1 ≤ sampleW img := by
  have h := Int.toNat_le_toNat (le_max_left 1 (jsRound (img.naturalWidth * sampleScale img)))
  simp only [Int.toNat_one] at h
  exact h

lemma sampleH_pos (img : SampledImage) : 1 ≤ sampleH img := by
  have h := Int.toNat_le_toNat (le_max_left 1 (jsRound (img.naturalHeight * sampleScale img)))
  simp only [Int.toNat_one] at h
  exact h

/-- On a zero-area rectangle at the origin the analyzer samples a single
pixel (rw and rh are clamped up to 1) and reports that pixel's
statistics: detail 0, mean its luminance. -/
lemma measureRegionDetail_zero_area (sq : ℚ → ℚ) (img : SampledImage) (hsq : sq 0 = 0) :
    measureRegionDetail sq true img ⟨0, 0, 0, 0⟩ = ⟨0, luma (img.pixel 0 0)⟩ := by
  have hrx : regionRx img ⟨0, 0, 0, 0⟩ = 0 := by
    simp [regionRx, jsRound_zero]
  have hry : regionRy img ⟨0, 0, 0, 0⟩ = 0 := by
    simp [regionRy, jsRound_zero]
  have hrw : regionRw img ⟨0, 0, 0, 0⟩ = 1 := by
    simp [regionRw, jsRound_zero]
  have hrh : regionRh img ⟨0, 0, 0, 0⟩ = 1 := by
    simp [regionRh, jsRound_zero]
  have h1 : (1 : ℤ) ≤ (sampleW img : ℤ) := by exact_mod_cast sampleW_pos img
  have h2 : (1 : ℤ) ≤ (sampleH img : ℤ) := by exact_mod_cast sampleH_pos img
  have hlumas : regionLumas img ⟨0, 0, 0, 0⟩ = [luma (img.pixel 0 0)] := by
    rw [regionLumas]
    simp only [hrx, hry, hrw, hrh, Nat.cast_zero, Nat.cast_one, sub_zero,
      min_eq_left h1, min_eq_left h2, Int.toNat_one]
    have hr1 : List.range 1 = [0] := rfl
    rw [hr1]
    simp
  have hloop : lumaLoop [luma (img.pixel 0 0)] (-1) ⟨0, 0, 0, 0⟩ =
      ⟨luma (img.pixel 0 0), luma (img.pixel 0 0) * luma (img.pixel 0 0), 0, 1⟩ := by
    rw [lumaLoop, lumaLoop]
    rw [if_neg (by norm_num : ¬ (0 : ℚ) ≤ -1)]
    norm_num
  simp only [measureRegionDetail, hlumas, hloop]
  norm_num [jmax, jmin, hsq]

/-- The concrete white 2 by 2 image for the counterexample. -/
def whiteImg : SampledImage :=
  { naturalWidth := 2, naturalHeight := 2, pixel := fun _ _ => ⟨255, 255, 255⟩ }

/-- Claim C7, counterexample: on a zero-area rectangle at the origin of a
white image the analyzer returns detail 0 and mean 1, not the claimed
detail 1 and mean one half. -/
theorem C7_zero_area_counterexample :
    measureRegionDetail jsSqrt true whiteImg ⟨0, 0, 0, 0⟩ = ⟨0, 1⟩ ∧
    (⟨0, 1⟩ : RegionScore) ≠ ⟨1, 1/2⟩ := by
  constructor
  · rw [measureRegionDetail_zero_area jsSqrt whiteImg (by norm_num [jsSqrt])]
    have : luma (whiteImg.pixel 0 0) = 1 := by norm_num [whiteImg, luma]
    rw [this]
  · intro h
    have := congrArg RegionScore.detail h
    norm_num at this

/-- Claim C7, amended: a zero-area rectangle is inflated to a minimum one
by one pixel sample, whose statistics (detail 0, mean the pixel's
luminance) are returned; detail 1 and mean one half are returned exactly
on the no-2D-context path (and by the count-zero guard). -/
theorem C7_zero_area_amended (sq : ℚ → ℚ) (img : SampledImage) (hsq : sq 0 = 0) :
    measureRegionDetail sq true img ⟨0, 0, 0, 0⟩ = ⟨0, luma (img.pixel 0 0)⟩ ∧
    measureRegionDetail sq false img ⟨0, 0, 0, 0⟩ = ⟨1, 1/2⟩ :=
  ⟨measureRegionDetail_zero_area sq img hsq, rfl⟩

theorem C7_zero_area_amended_witness :
    jsSqrt 0 = 0 ∧
    (measureRegionDetail jsSqrt true whiteImg ⟨0, 0, 0, 0⟩ = ⟨0, luma (whiteImg.pixel 0 0)⟩ ∧
     measureRegionDetail jsSqrt false whiteImg ⟨0, 0, 0, 0⟩ = ⟨1, 1/2⟩) :=
  ⟨by norm_num [jsSqrt], C7_zero_area_amended jsSqrt whiteImg (by norm_num [jsSqrt])⟩

/-! ## Grid-search optimizer (App.tsx:645-725) -/

/-- Source measureTextBoxNorm (App.tsx:645-658): the measured text box in
normalized units, (0.3, 0.06) when no 2D context; weight defaults to 700
at the destructuring. -/
def measureTextBoxNorm (ctx : Option MeasureCtx) (text : String)
    (sizePct weight stageW stageH : ℚ) : ℚ × ℚ :=
  match ctx with
  | none => (0.3, 0.06)
  | some c =>
    let fontPx := jmax 10 ((jsRound (sizePct / 100 * jmax stageW stageH) : ℤ) : ℚ)
    let metrics := c text weight fontPx
    let ascent := jmax (if metrics.actualBoundingBoxAscent = 0 then fontPx * 0.8
      else metrics.actualBoundingBoxAscent) 1
    let descent := jmax (if metrics.actualBoundingBoxDescent = 0 then fontPx * 0.2
      else metrics.actualBoundingBoxDescent) 1
    (metrics.width / stageW, (ascent + descent) / stageH)

/-- Source chooseCaptionColors (App.tsx:615-623): (color, stroke). -/
def chooseCaptionColors (meanLuma : ℚ) : String × String :=
  if meanLuma > 0.6 then ("#111111", "#FFFFFF")
  else if meanLuma < 0.25 then ("#FFFFFF", "#000000")
  else ("#FFD400", "#000000")

/-- The record findBestCaptionPlacement returns when not null. -/
structure FBResult where
  x : ℚ
  y : ℚ
  sizePct : ℚ
  anchor : Anchor
  color : String
  stroke : String
deriving DecidableEq, Repr

/-- The seven anchors the grid search scans, in order (App.tsx:672). -/
def fbAnchors : List Anchor := [.tc, .bc, .tl, .tr, .bl, .br, .cc]

def fbXs : List ℚ := [0.2, 0.35, 0.5, 0.65, 0.8]

def fbYs : List ℚ := [0.15, 0.3, 0.5, 0.7, 0.85]

/-- The inner three loops' candidates in iteration order: anchor, then x,
then y (App.tsx:680-682). -/
def fbTriples : List (Anchor × ℚ × ℚ) :=
  fbAnchors.flatMap fun a => fbXs.flatMap fun x => fbYs.map fun y => (a, x, y)

/-- The candidate sizes: size = maxPct, maxPct - 0.5, ... while size is at
least minPct (App.tsx:678). -/
def fbSizes (maxPct minPct : ℚ) : List ℚ :=
  (List.range (if maxPct < minPct then 0 else (⌊(maxPct - minPct) * 2⌋.toNat + 1))).map
    fun k : ℕ => maxPct - (k : ℚ) / 2

/-- The optimizer's inputs: its image (with the downsampling pixel
oracle), its per-call measurement canvas, the Math.sqrt oracle, and the
destructured arguments. -/
structure FBEnv where
  bctx : Option MeasureCtx
  sq : ℚ → ℚ
  ctxOk : Bool
  img : SampledImage
  text : String
  preferredAnchor : Anchor
  minPct : ℚ
  maxPct : ℚ
  marginPct : ℚ

/-- The text box measured once per size (App.tsx:679); stage dimensions
are the image's natural dimensions (App.tsx:670-671). -/
def fbBox (e : FBEnv) (size : ℚ) : ℚ × ℚ :=
  measureTextBoxNorm e.bctx e.text size 700 e.img.naturalWidth e.img.naturalHeight

/-- The candidate's bounding rectangle as the source computes it
(App.tsx:683-706): anchor offset, px and py with the box.w-or-1 guard,
then the left/top rectangle. -/
def fbRect (box : ℚ × ℚ) (anchor : Anchor) (x y : ℚ) : RectNorm :=
  let aw := box.1
  let ah := box.2
  let off := anchorOffset aw ah anchor
  let px := x - off.1 / (if aw = 0 then 1 else aw) * aw
  let py := y - off.2 / (if ah = 0 then 1 else ah) * ah
  { x := px - (aw / 2 - off.1), y := py - (ah / 2 - off.2), w := aw, h := ah }

/-- The margin skip condition (App.tsx:709). -/
def fbMarginViolated (m : ℚ) (r : RectNorm) : Prop :=
  r.x < m ∨ r.y < m ∨ r.x + r.w > 1 - m ∨ r.y + r.h > 1 - m

instance (m : ℚ) (r : RectNorm) : Decidable (fbMarginViolated m r) := by
  unfold fbMarginViolated
  infer_instance

/-- detail and mean for one candidate's rectangle (App.tsx:710). -/
def fbScore (e : FBEnv) (size : ℚ) (t : Anchor × ℚ × ℚ) : RegionScore :=
  measureRegionDetail e.sq e.ctxOk e.img (fbRect (fbBox e size) t.1 t.2.1 t.2.2)

/-- cost = detail + 0.15 * (1 - edgePenalty) + anchor penalty
(App.tsx:711-713). -/
def fbCost (e : FBEnv) (size : ℚ) (t : Anchor × ℚ × ℚ) : ℚ :=
  let rect := fbRect (fbBox e size) t.1 t.2.1 t.2.2
  let m := e.marginPct / 100
  let edgePenalty := jmin 1 (jmin (rect.x - m) (jmin (rect.y - m)
    (jmin (1 - m - (rect.x + rect.w)) (1 - m - (rect.y + rect.h)))))
  (fbScore e size t).detail + 0.15 * (1 - edgePenalty) +
    (if t.1 = e.preferredAnchor then 0 else 0.02)

/-- The best-candidate record written when a candidate wins
(App.tsx:714-718). -/
def fbCandResult (e : FBEnv) (size : ℚ) (t : Anchor × ℚ × ℚ) : FBResult :=
  let col := chooseCaptionColors (fbScore e size t).mean
  { x := t.2.1, y := t.2.2, sizePct := size, anchor := t.1, color := col.1, stroke := col.2 }

/-- One candidate against the running best: skip on margin violation,
else take it when its cost beats the best so far; none models the initial
best = null with bestCost = Infinity (App.tsx:675-719). -/
def fbStep (e : FBEnv) (size : ℚ) (st : Option (FBResult × ℚ)) (t : Anchor × ℚ × ℚ) :
    Option (FBResult × ℚ) :=
  if fbMarginViolated (e.marginPct / 100) (fbRect (fbBox e size) t.1 t.2.1 t.2.2) then st
  else
    match st with
    | none => some (fbCandResult e size t, fbCost e size t)
    | some (b, bc) =>
      if fbCost e size t < bc then some (fbCandResult e size t, fbCost e size t)
      else some (b, bc)

/-- The outer size loop with the early break once the best cost drops
below 0.08 (App.tsx:678-723). -/
def fbLoop (e : FBEnv) : List ℚ → Option (FBResult × ℚ) → Option (FBResult × ℚ)
  | [], st => st
  | size :: rest, st =>
    match fbTriples.foldl (fbStep e size) st with
    | some bb => if bb.2 < 0.08 then some bb else fbLoop e rest (some bb)
    | none => fbLoop e rest none

/-- Source findBestCaptionPlacement (App.tsx:661-725). -/
def findBestCaptionPlacement (e : FBEnv) : Option FBResult :=
  (fbLoop e (fbSizes e.maxPct e.minPct) none).map Prod.fst

lemma fbStep_eq_or (e : FBEnv) (size : ℚ) (st : Option (FBResult × ℚ)) (t : Anchor × ℚ × ℚ) :
    fbStep e size st t = st ∨
      (¬ fbMarginViolated (e.marginPct / 100) (fbRect (fbBox e size) t.1 t.2.1 t.2.2) ∧
        fbStep e size st t = some (fbCandResult e size t, fbCost e size t)) := by
  unfold fbStep
  split
  · exact Or.inl rfl
  · next h =>
    cases st with
    | none => exact Or.inr ⟨h, rfl⟩
    | some p =>
      cases p with
      | mk b bc =>
        dsimp only
        split
        · exact Or.inr ⟨h, rfl⟩
        · exact Or.inl rfl

lemma fbStep_none_iff (e : FBEnv) (size : ℚ) (st : Option (FBResult × ℚ)) (t : Anchor × ℚ × ℚ) :
    fbStep e size st t = none ↔
      (st = none ∧ fbMarginViolated (e.marginPct / 100) (fbRect (fbBox e size) t.1 t.2.1 t.2.2)) := by
  unfold fbStep
  split
  · next h => simp [h]
  · next h =>
    cases st with
    | none => simp [h]
    | some p =>
      cases p with
      | mk b bc =>
        dsimp only
        split <;> simp [h]

lemma fbFold_result (e : FBEnv) (size : ℚ) :
    ∀ (ts : List (Anchor × ℚ × ℚ)) (st : Option (FBResult × ℚ)),
      ts.foldl (fbStep e size) st = st ∨
        ∃ t ∈ ts, ¬ fbMarginViolated (e.marginPct / 100) (fbRect (fbBox e size) t.1 t.2.1 t.2.2) ∧
          ts.foldl (fbStep e size) st = some (fbCandResult e size t, fbCost e size t) := by
  intro ts
  induction ts with
  | nil => intro st; exact Or.inl rfl
  | cons t ts ih =>
    intro st
    rw [List.foldl_cons]
    rcases ih (fbStep e size st t) with h | ⟨t', ht', hok, heq⟩
    · rw [h]
      rcases fbStep_eq_or e size st t with h2 | ⟨hok, h2⟩
      · exact Or.inl h2
      · exact Or.inr ⟨t, List.mem_cons_self t ts, hok, h2⟩
    · exact Or.inr ⟨t', List.mem_cons_of_mem t ht', hok, heq⟩

lemma fbFold_none_iff (e : FBEnv) (size : ℚ) :
    ∀ (ts : List (Anchor × ℚ × ℚ)) (st : Option (FBResult × ℚ)),
      ts.foldl (fbStep e size) st = none ↔
        (st = none ∧ ∀ t ∈ ts,
          fbMarginViolated (e.marginPct / 100) (fbRect (fbBox e size) t.1 t.2.1 t.2.2)) := by
  intro ts
  induction ts with
  | nil => intro st; simp
  | cons t ts ih =>
    intro st
    rw [List.foldl_cons, ih, fbStep_none_iff]
    constructor
    · rintro ⟨⟨h1, h2⟩, h3⟩
      refine ⟨h1, fun t' ht' => ?_⟩
      rcases List.mem_cons.mp ht' with h | h
      · rw [h]; exact h2
      · exact h3 t' h
    · rintro ⟨h1, h2⟩
      exact ⟨⟨h1, h2 t (List.mem_cons_self t ts)⟩,
        fun t' ht' => h2 t' (List.mem_cons_of_mem t ht')⟩

lemma fbFold_some (e : FBEnv) (size : ℚ) :
    ∀ (ts : List (Anchor × ℚ × ℚ)) (bb : FBResult × ℚ),
      ∃ bb', ts.foldl (fbStep e size) (some bb) = some bb' := by
  intro ts
  induction ts with
  | nil => intro bb; exact ⟨bb, rfl⟩
  | cons t ts ih =>
    intro bb
    rw [List.foldl_cons]
    rcases fbStep_eq_or e size (some bb) t with h | ⟨_, h⟩ <;> rw [h]
    · exact ih bb
    · exact ih _

lemma fbLoop_some_ne_none (e : FBEnv) :
    ∀ (sizes : List ℚ) (bb : FBResult × ℚ), fbLoop e sizes (some bb) ≠ none := by
  intro sizes
  induction sizes with
  | nil => intro bb h; exact Option.noConfusion h
  | cons size rest ih =>
    intro bb
    rw [fbLoop]
    obtain ⟨bb', hbb'⟩ := fbFold_some e size fbTriples bb
    rw [hbb']
    dsimp only
    split
    · exact fun h => Option.noConfusion h
    · exact ih bb'

lemma fbLoop_none_iff (e : FBEnv) :
    ∀ (sizes : List ℚ) (st : Option (FBResult × ℚ)),
      fbLoop e sizes st = none ↔
        (st = none ∧ ∀ size ∈ sizes, ∀ t ∈ fbTriples,
          fbMarginViolated (e.marginPct / 100) (fbRect (fbBox e size) t.1 t.2.1 t.2.2)) := by
  intro sizes
  induction sizes with
  | nil => intro st; simp [fbLoop]
  | cons size rest ih =>
    intro st
    rw [fbLoop]
    cases hst : fbTriples.foldl (fbStep e size) st with
    | none =>
      rw [ih]
      have hfold := (fbFold_none_iff e size fbTriples st).mp hst
      constructor
      · rintro ⟨-, h3⟩
        refine ⟨hfold.1, fun size' hsize' t ht => ?_⟩
        rcases List.mem_cons.mp hsize' with h | h
        · rw [h]; exact hfold.2 t ht
        · exact h3 size' h t ht
      · rintro ⟨h1, h2⟩
        exact ⟨rfl, fun size' hsize' t ht => h2 size' (List.mem_cons_of_mem size hsize') t ht⟩
    | some bb =>
      have hcontra : ¬ (st = none ∧ ∀ size' ∈ size :: rest, ∀ t ∈ fbTriples,
          fbMarginViolated (e.marginPct / 100) (fbRect (fbBox e size') t.1 t.2.1 t.2.2)) := by
        rintro ⟨h1, h2⟩
        have hn : fbTriples.foldl (fbStep e size) st = none :=
          (fbFold_none_iff e size fbTriples st).mpr
            ⟨h1, fun t ht => h2 size (List.mem_cons_self size rest) t ht⟩
        rw [hst] at hn
        exact Option.noConfusion hn
      dsimp only
      split
      · exact iff_of_false (fun h => Option.noConfusion h) hcontra
      · exact iff_of_false (fbLoop_some_ne_none e rest bb) hcontra

lemma fbLoop_result (e : FBEnv) :
    ∀ (sizes : List ℚ) (st : Option (FBResult × ℚ)),
      fbLoop e sizes st = st ∨
        ∃ size ∈ sizes, ∃ t ∈ fbTriples,
          ¬ fbMarginViolated (e.marginPct / 100) (fbRect (fbBox e size) t.1 t.2.1 t.2.2) ∧
          fbLoop e sizes st = some (fbCandResult e size t, fbCost e size t) := by
  intro sizes
  induction sizes with
  | nil => intro st; exact Or.inl rfl
  | cons size rest ih =>
    intro st
    rw [fbLoop]
    cases hst : fbTriples.foldl (fbStep e size) st with
    | none =>
      dsimp only
      have hfold := (fbFold_none_iff e size fbTriples st).mp hst
      rcases ih none with h | ⟨size', hsize', t, ht, hok, heq⟩
      · exact Or.inl (h.trans hfold.1.symm)
      · exact Or.inr ⟨size', List.mem_cons_of_mem size hsize', t, ht, hok, heq⟩
    | some bb =>
      dsimp only
      have hprov : st = some bb ∨
          ∃ t ∈ fbTriples,
            ¬ fbMarginViolated (e.marginPct / 100) (fbRect (fbBox e size) t.1 t.2.1 t.2.2) ∧
            some bb = some (fbCandResult e size t, fbCost e size t) := by
        rcases fbFold_result e size fbTriples st with h | ⟨t, ht, hok, heq⟩
        · rw [hst] at h; exact Or.inl h.symm
        · rw [hst] at heq; exact Or.inr ⟨t, ht, hok, heq⟩
      split
      · rcases hprov with h | ⟨t, ht, hok, heq⟩
        · exact Or.inl h.symm
        · exact Or.inr ⟨size, List.mem_cons_self size rest, t, ht, hok, heq⟩
      · rcases ih (some bb) with h | ⟨size', hsize', t, ht, hok, heq⟩
        · rw [h]
          rcases hprov with h2 | ⟨t, ht, hok, heq⟩
          · exact Or.inl h2.symm
          · exact Or.inr ⟨size, List.mem_cons_self size rest, t, ht, hok, heq⟩
        · exact Or.inr ⟨size', List.mem_cons_of_mem size hsize', t, ht, hok, heq⟩

lemma fbSizes_mem {maxPct minPct s : ℚ} (h : s ∈ fbSizes maxPct minPct) :
    minPct ≤ s ∧ s ≤ maxPct := by
  rw [fbSizes] at h
  obtain ⟨k, hk, rfl⟩ := List.mem_map.mp h
  rw [List.mem_range] at hk
  by_cases hlt : maxPct < minPct
  · rw [if_pos hlt] at hk
    exact absurd hk (Nat.not_lt_zero k)
  · rw [if_neg hlt] at hk
    push_neg at hlt
    have h0 : (0 : ℚ) ≤ (maxPct - minPct) * 2 := by linarith
    have hk2 : k ≤ ⌊(maxPct - minPct) * 2⌋.toNat := Nat.lt_succ_iff.mp hk
    have hcast : ((k : ℤ) : ℚ) ≤ (maxPct - minPct) * 2 := by
      calc ((k : ℤ) : ℚ) ≤ ((⌊(maxPct - minPct) * 2⌋.toNat : ℤ) : ℚ) := by
            exact_mod_cast hk2
        _ = ((⌊(maxPct - minPct) * 2⌋ : ℤ) : ℚ) := by
            rw [Int.toNat_of_nonneg (Int.floor_nonneg.mpr h0)]
        _ ≤ (maxPct - minPct) * 2 := Int.floor_le _
    have hknn : (0 : ℚ) ≤ (k : ℚ) := Nat.cast_nonneg k
    constructor
    · push_cast at hcast
      linarith
    · linarith

lemma fbTriples_mem {t : Anchor × ℚ × ℚ} (h : t ∈ fbTriples) :
    t.2.1 ∈ fbXs ∧ t.2.2 ∈ fbYs := by
  rw [fbTriples] at h
  obtain ⟨a, _, h2⟩ := List.mem_flatMap.mp h
  obtain ⟨x, hx, h3⟩ := List.mem_flatMap.mp h2
  obtain ⟨y, hy, rfl⟩ := List.mem_map.mp h3
  exact ⟨hx, hy⟩

/-- Shared provenance: a non-null optimizer result is the candidate record
of one margin-respecting candidate from the scanned grid. -/
lemma findBest_some_prov (e : FBEnv) (r : FBResult)
    (h : findBestCaptionPlacement e = some r) :
    ∃ size ∈ fbSizes e.maxPct e.minPct, ∃ t ∈ fbTriples,
      ¬ fbMarginViolated (e.marginPct / 100) (fbRect (fbBox e size) t.1 t.2.1 t.2.2) ∧
      r = fbCandResult e size t := by
  rw [findBestCaptionPlacement] at h
  obtain ⟨p, hp, hpr⟩ := Option.map_eq_some'.mp h
  rcases fbLoop_result e (fbSizes e.maxPct e.minPct) none with h2 | ⟨size, hsize, t, ht, hok, heq⟩
  · rw [h2] at hp
    exact Option.noConfusion hp
  · rw [heq] at hp
    obtain rfl := Option.some_injective _ hp
    exact ⟨size, hsize, t, ht, hok, hpr.symm⟩

/-- Shared: grid coordinates of a non-null result. -/
lemma findBest_some_xy (e : FBEnv) (r : FBResult)
    (h : findBestCaptionPlacement e = some r) : r.x ∈ fbXs ∧ r.y ∈ fbYs := by
  obtain ⟨size, _, t, ht, _, rfl⟩ := findBest_some_prov e r h
  have := fbTriples_mem ht
  exact ⟨this.1, this.2⟩

/-- Claim C5: the optimizer returns null exactly when every candidate
(sizes stepping from maxPct down to minPct by 0.5, the seven scanned
anchors, the 5 by 5 center grid) has a bounding rectangle violating the
margins; and every non-null result is the record of one margin-respecting
candidate, with sizePct within [minPct, maxPct], so text is never placed
outside the margins. -/
theorem C5_findBest_none_iff (e : FBEnv) :
    (findBestCaptionPlacement e = none ↔
      ∀ size ∈ fbSizes e.maxPct e.minPct, ∀ t ∈ fbTriples,
        fbMarginViolated (e.marginPct / 100) (fbRect (fbBox e size) t.1 t.2.1 t.2.2)) ∧
    Option.elim (findBestCaptionPlacement e) True (fun r =>
      e.minPct ≤ r.sizePct ∧ r.sizePct ≤ e.maxPct ∧
      ∃ size ∈ fbSizes e.maxPct e.minPct, ∃ t ∈ fbTriples,
        ¬ fbMarginViolated (e.marginPct / 100) (fbRect (fbBox e size) t.1 t.2.1 t.2.2) ∧
        r = fbCandResult e size t) := by
  constructor
  · rw [findBestCaptionPlacement, Option.map_eq_none', fbLoop_none_iff]
    simp
  · cases hr : findBestCaptionPlacement e with
    | none => exact trivial
    | some r =>
      dsimp only [Option.elim]
      obtain ⟨size, hsize, t, ht, hok, hr2⟩ := findBest_some_prov e r hr
      have hrange := fbSizes_mem hsize
      have hsp : r.sizePct = size := by rw [hr2]; rfl
      rw [hsp]
      exact ⟨hrange.1, hrange.2, size, hsize, t, ht, hok, hr2⟩

/-! ## Caption state machine (App.tsx:470-538, 2166-2208) -/

/-- The Caption record (App.tsx:470-480). -/
structure Caption where
  id : String
  text : String
  x : ℚ
  y : ℚ
  sizePct : ℚ
  color : String
  stroke : Option String
  weight : Option ℚ
  anchor : Option Anchor
deriving DecidableEq, Repr

/-- The three React state cells: the live array, the history of
snapshots, and the cursor (App.tsx:482-484). -/
structure CapState where
  captions : List Caption
  captionHistory : List (List Caption)
  captionIndex : ℕ
deriving DecidableEq, Repr

/-- The state for a freshly loaded photo (App.tsx:482-489): the empty
live array and one empty snapshot at cursor 0. -/
def initCapState : CapState := ⟨[], [[]], 0⟩

/-- The commit pattern every caption mutation uses (App.tsx:532-537 and
the handlers at 1067-1076, 1091-1098, 1111-1118, 2195-2202): truncate the
history after the cursor, append the new snapshot, point the cursor at
it, and make it live. -/
def commitCap (s : CapState) (snap : List Caption) : CapState :=
  let hist := s.captionHistory.take (s.captionIndex + 1) ++ [snap]
  ⟨snap, hist, hist.length - 1⟩

/-- Undo Caption (App.tsx:2169-2171): cursor = max(0, cursor - 1), live =
history at the new cursor (or [] out of range). -/
def undoCap (s : CapState) : CapState :=
  ⟨s.captionHistory.getD (s.captionIndex - 1) [], s.captionHistory, s.captionIndex - 1⟩

/-- Redo Caption (App.tsx:2180-2182): cursor = min(length - 1, cursor + 1). -/
def redoCap (s : CapState) : CapState :=
  ⟨s.captionHistory.getD (min (s.captionHistory.length - 1) (s.captionIndex + 1)) [],
   s.captionHistory, min (s.captionHistory.length - 1) (s.captionIndex + 1)⟩

inductive HistOp where
  | commit (snap : List Caption)
  | undo
  | redo
deriving DecidableEq, Repr

def applyHistOp (s : CapState) : HistOp → CapState
  | .commit snap => commitCap s snap
  | .undo => undoCap s
  | .redo => redoCap s

def runHist (ops : List HistOp) : CapState := ops.foldl applyHistOp initCapState

/-- The history invariant: the cursor indexes the history and the live
array is the snapshot there. -/
def histInv (s : CapState) : Prop :=
  s.captionIndex < s.captionHistory.length ∧
  s.captionHistory.getD s.captionIndex [] = s.captions

lemma histInv_init : histInv initCapState := by
  constructor <;> simp [initCapState]

lemma getD_append_last {α : Type} (l : List α) (a d : α) :
    (l ++ [a]).getD l.length d = a := by
  rw [List.getD_eq_getElem?_getD, List.getElem?_append_right (le_refl l.length)]
  simp

lemma histInv_commit (s : CapState) (snap : List Caption) (h : histInv s) :
    histInv (commitCap s snap) := by
  obtain ⟨h1, -⟩ := h
  have hlen : (s.captionHistory.take (s.captionIndex + 1)).length = s.captionIndex + 1 := by
    rw [List.length_take]
    omega
  constructor
  · simp [commitCap]
  · show (s.captionHistory.take (s.captionIndex + 1) ++ [snap]).getD
      ((s.captionHistory.take (s.captionIndex + 1) ++ [snap]).length - 1) [] = snap
    rw [List.length_append, hlen]
    simp only [List.length_singleton]
    have : s.captionIndex + 1 + 1 - 1 = (s.captionHistory.take (s.captionIndex + 1)).length := by
      omega
    rw [this, getD_append_last]

lemma histInv_undo (s : CapState) (h : histInv s) : histInv (undoCap s) :=
  ⟨by have := h.1; simp [undoCap]; omega, rfl⟩

lemma histInv_redo (s : CapState) (h : histInv s) : histInv (redoCap s) :=
  ⟨by have := h.1; simp [redoCap]; omega, rfl⟩

lemma histInv_run (ops : List HistOp) : histInv (runHist ops) := by
  rw [runHist]
  have : ∀ s, histInv s → histInv (ops.foldl applyHistOp s) := by
    induction ops with
    | nil => exact fun s h => h
    | cons op rest ih =>
      intro s h
      rw [List.foldl_cons]
      refine ih _ ?_
      cases op with
      | commit snap => exact histInv_commit s snap h
      | undo => exact histInv_undo s h
      | redo => exact histInv_redo s h
  exact this initCapState histInv_init

/-- Claim C3: from the initial one-empty-snapshot history, after any
sequence of commit, undo and redo operations the live caption array is
the history snapshot at the cursor, the cursor indexes the history, and
the history is nonempty. -/
theorem C3_history_consistency (ops : List HistOp) :
    (runHist ops).captionHistory.getD (runHist ops).captionIndex [] = (runHist ops).captions ∧
    (runHist ops).captionIndex < (runHist ops).captionHistory.length ∧
    (runHist ops).captionHistory ≠ [] := by
  have h := histInv_run ops
  refine ⟨h.2, h.1, ?_⟩
  intro hnil
  have := h.1
  rw [hnil] at this
  exact absurd this (by simp)

/-- Concrete captions for the truncation scenario. -/
def capA : Caption :=
  { id := "A", text := "Caption A", x := 1/2, y := 9/10, sizePct := 5,
    color := "#FFD400", stroke := none, weight := none, anchor := none }

def capB : Caption :=
  { id := "B", text := "Caption B", x := 1/2, y := 9/10, sizePct := 5,
    color := "#FFD400", stroke := none, weight := none, anchor := none }

def capC : Caption :=
  { id := "C", text := "Caption C", x := 1/2, y := 9/10, sizePct := 5,
    color := "#FFD400", stroke := none, weight := none, anchor := none }

/-- The scenario: [A] committed, then commit [A,B], undo, commit [A,C]. -/
def c8State : CapState :=
  runHist [.commit [capA], .commit [capA, capB], .undo, .commit [capA, capC]]

/-- Undo/redo only, for irrecoverability. -/
inductive UROp where
  | undo
  | redo
deriving DecidableEq, Repr

def applyUR (s : CapState) : UROp → CapState
  | .undo => undoCap s
  | .redo => redoCap s

def runUR (s : CapState) (ops : List UROp) : CapState := ops.foldl applyUR s

lemma getD_pred {α : Type} (P : List α → Prop) (hnil : P []) {l : List (List α)}
    (h : ∀ snap ∈ l, P snap) (n : ℕ) : P (l.getD n []) := by
  rcases hx : l[n]? with _ | snap
  · rw [List.getD_eq_getElem?_getD, hx]
    exact hnil
  · rw [List.getD_eq_getElem?_getD, hx]
    exact h snap (List.getElem?_mem hx)

/-- Undo and redo never change the history, and keep the live array
satisfying any snapshot-wise property the history satisfies. -/
lemma runUR_pred (P : List Caption → Prop) (hnil : P []) :
    ∀ (ops : List UROp) (s : CapState), P s.captions →
      (∀ snap ∈ s.captionHistory, P snap) →
      P (runUR s ops).captions ∧ (runUR s ops).captionHistory = s.captionHistory := by
  intro ops
  induction ops with
  | nil => exact fun s h1 h2 => ⟨h1, rfl⟩
  | cons op rest ih =>
    intro s h1 h2
    rw [runUR, List.foldl_cons]
    have hstep : P (applyUR s op).captions ∧ (applyUR s op).captionHistory = s.captionHistory := by
      cases op with
      | undo => exact ⟨getD_pred P hnil h2 _, rfl⟩
      | redo => exact ⟨getD_pred P hnil h2 _, rfl⟩
    have := ih (applyUR s op) hstep.1 (by rw [hstep.2]; exact h2)
    rw [runUR] at this
    exact ⟨this.1, this.2.trans hstep.2⟩

/-- Claim C8: after commit([A,B]), undo, commit([A,C]) from live [A], the
snapshot [A,B] has been truncated away — the final history is
[[], [A], [A,C]] — and caption B occurs in no state reachable from there
by undo/redo alone. -/
theorem C8_commit_truncates_B_irrecoverable :
    c8State.captionHistory = [[], [capA], [capA, capC]] ∧
    c8State.captions = [capA, capC] ∧
    ∀ ops : List UROp, ((runUR c8State ops).captions).count capB = 0 := by
  refine ⟨rfl, rfl, fun ops => ?_⟩
  have h := runUR_pred (fun snap => snap.count capB = 0) rfl ops c8State (by decide)
    (by decide)
  exact h.1

/-! ## Canvas export paths (App.tsx:114-148 and 2086-2149) -/

/-- An exported image's bytes. -/
structure JsBlob where
  bytes : List ℕ
deriving DecidableEq, Repr

/-- What the browser supplies to renderEditorStateToBlob's promise body:
canvas.toDataURL (a data URL, or a throw), and base64 decoding (atob),
which fails on malformed input. -/
structure EncodeEnv where
  toDataURL : Except String String
  atob : String → Option (List ℕ)

inductive RenderOutcome where
  | ok (b : JsBlob)
  | err (msg : String)
deriving DecidableEq, Repr

/-- The data-URL byte-reconstruction path (App.tsx:120-131): toDataURL,
split at the comma, take part 1 (throw when absent or empty — both are
falsy), atob, rebuild the bytes. -/
def dataUrlFallback (env : EncodeEnv) : Except String JsBlob :=
  match env.toDataURL with
  | .error e => .error e
  | .ok dataUrl =>
    match (dataUrl.splitOn ",")[1]? with
    | none => .error "Failed to export edited image."
    | some b64 =>
      if b64 = "" then .error "Failed to export edited image."
      else
        match env.atob b64 with
        | none => .error "InvalidCharacterError"
        | some bytes => .ok ⟨bytes⟩

/-- handleBlob (App.tsx:115-141): resolve the primary result when
present, otherwise run the data-URL fallback; when that also fails,
reject with the primary path's thrown error if there was one, else with
the fallback's own error. -/
def handleBlob (env : EncodeEnv) (result : Option JsBlob) (fallbackError : Option String) :
    RenderOutcome :=
  match result with
  | some b => .ok b
  | none =>
    match dataUrlFallback env with
    | .ok b => .ok b
    | .error e =>
      match fallbackError with
      | some fe => .err fe
      | none => .err e

/-- The promise body (App.tsx:143-147): canvas.toBlob's callback feeds
handleBlob; a throwing toBlob reaches handleBlob with null and the
thrown error. -/
def renderEditorExport (env : EncodeEnv) (toBlobResult : Option JsBlob)
    (toBlobThrown : Option String) : RenderOutcome :=
  match toBlobThrown with
  | some err => handleBlob env none (some err)
  | none => handleBlob env toBlobResult none

inductive SaveOutcome where
  | download (b : JsBlob) (filename : String)
  | alertMsg (msg : String)
deriving DecidableEq, Repr

/-- The caption compositor's Save Edited export callback
(App.tsx:2136-2145): a null blob surfaces the alert immediately; this
path has no data-URL retry. -/
def saveEditedToBlobCallback (filename : String) (b : Option JsBlob) : SaveOutcome :=
  match b with
  | none => .alertMsg "Failed to create image."
  | some blob => .download blob filename

/-- Claim C6, counterexample: when the caption compositor's primary
encode (canvas.toBlob) yields no data, the code surfaces the failure
alert at once — its callback consults no data-URL environment at all —
so the claimed byte-reconstruction retry does not happen on this path. -/
theorem C6_save_edited_counterexample :
    saveEditedToBlobCallback "edited.jpg" none = .alertMsg "Failed to create image." :=
  rfl

/-- Claim C6, amended: the data-URL byte-reconstruction fallback lives in
renderEditorStateToBlob, the editor-state render path: a present primary
blob resolves as is, a missing one resolves through the data-URL
pipeline, and an error is surfaced only when that pipeline also fails.
The caption Save Edited export instead surfaces its alert immediately on
a null blob, with no retry; neither path drops the export silently. -/
theorem C6_export_fallback_amended (env : EncodeEnv) (b : JsBlob) (filename : String) :
    renderEditorExport env (some b) none = .ok b ∧
    renderEditorExport env none none =
      (match dataUrlFallback env with
       | .ok blob => .ok blob
       | .error e => .err e) ∧
    (∀ thrown, renderEditorExport env none (some thrown) =
      (match dataUrlFallback env with
       | .ok blob => .ok blob
       | .error _ => .err thrown)) ∧
    saveEditedToBlobCallback filename (some b) = .download b filename ∧
    saveEditedToBlobCallback filename none = .alertMsg "Failed to create image." := by
  refine ⟨rfl, ?_, fun thrown => ?_, rfl, rfl⟩
  · rw [renderEditorExport, handleBlob]
  · rw [renderEditorExport, handleBlob]

/-! ## Caption text resolution and the nudge scan
(App.tsx:452-468, 626-642) -/

/-- JS String.prototype.trim. -/
def jsTrim (s : String) : String :=
  String.mk (((s.data.dropWhile isJsWs).reverse.dropWhile isJsWs).reverse)

/-- The test /date\s*&?\s*area/i anchored at one position. -/
def dateAreaAt (l : List Char) : Bool :=
  match matchCI "date".data l with
  | none => false
  | some rest =>
    let rest2 := rest.dropWhile isJsWs
    let rest3 := match rest2 with
      | '&' :: r => r.dropWhile isJsWs
      | _ => rest2
    (matchCI "area".data rest3).isSome

/-- The test /date\s*&?\s*area/i searching the whole string. -/
def dateAreaTest : List Char → Bool
  | [] => false
  | c :: rest => dateAreaAt (c :: rest) || dateAreaTest rest

/-- Source resolveCaptionText (App.tsx:452-468): split at the first
newline, trim, fill a missing or placeholder second line from the date
and area strings (formatNiceDate / inferAreaFromGps results, supplied
here as inputs), wrap and sanitize. -/
def resolveCaptionText (dateStr areaStr : Option String) (text : String) : String :=
  if text = "" then ""
  else
    let pieces := text.split (· = '\n')
    let line1 := jsTrim ((pieces[0]?).getD "")
    let line2 := jsTrim ((pieces[1]?).getD "")
    let line2' :=
      if line2 = "" ∨ dateAreaTest line2.data then
        let ps := (match dateStr with
            | some d => if d = "" then [] else [d]
            | none => []) ++
          (match areaStr with
            | some a => if a = "" then [] else [a]
            | none => [])
        let joined := String.intercalate " – " ps
        if joined = "" then (pieces[1]?).getD "" else joined
      else line2
    let safe1 := sanitizeCaptionHtml ("<strong>" ++ line1 ++ "</strong>")
    let safe2 := sanitizeCaptionHtml ("<small>" ++ line2' ++ "</small>")
    if safe2 = "" then safe1 else safe1 ++ "<br/>" ++ safe2

/-- The matcher of /<[^>]+>/g, used on the beautified text before
measurement (App.tsx:1019, 1030): replaced by one space. -/
def mStrip : List Char → Option (List Char × List Char)
  | [] => none
  | c :: rest =>
    if c = '<' then
      match rest with
      | '>' :: _ => none
      | _ =>
        match untilGt rest with
        | some rest' => some ([' '], rest')
        | none => none
    else none

def stripTagsToSpace (s : String) : String := String.mk (sanitizePass mStrip s.data)

/-- Source nudgeAwayFromDetail's scan loop (App.tsx:631-640): steps 1..16,
candidates above and below the given position, early break below 0.08. -/
def nudgeLoop (sq : ℚ → ℚ) (ctxOk : Bool) (img : SampledImage) (pos : RectNorm) :
    ℕ → ℕ → RectNorm → ℚ → RectNorm
  | 0, _, best, _ => best
  | fuel + 1, step, best, bestScore =>
    let dy := (step : ℚ) * 0.02
    let candUp : RectNorm := { pos with y := jmax 0.02 (pos.y - dy) }
    let candDown : RectNorm := { pos with y := jmin (0.98 - pos.h) (pos.y + dy) }
    let upScore := (measureRegionDetail sq ctxOk img candUp).detail
    let dnScore := (measureRegionDetail sq ctxOk img candDown).detail
    let p1 := if upScore < bestScore then (candUp, upScore) else (best, bestScore)
    let p2 := if dnScore < p1.2 then (candDown, dnScore) else p1
    if p2.2 < 0.08 then p2.1
    else nudgeLoop sq ctxOk img pos fuel (step + 1) p2.1 p2.2

/-- Source nudgeAwayFromDetail (App.tsx:626-642). -/
def nudgeAwayFromDetail (sq : ℚ → ℚ) (ctxOk : Bool) (img : SampledImage)
    (pos : RectNorm) : RectNorm :=
  nudgeLoop sq ctxOk img pos 16 1 pos (measureRegionDetail sq ctxOk img pos).detail

/-! ## The full caption mutation machine (C10) -/

/-- The stage element's environment when present: the image (its natural
dimensions double as the stage dimensions), the region canvas
availability and pixel oracle, the two measurement canvases, and
Math.sqrt. -/
structure StageEnv where
  img : SampledImage
  regionCtxOk : Bool
  mctx : Option MeasureCtx
  bctx : Option MeasureCtx
  sq : ℚ → ℚ

/-- The set_caption action's inputs (App.tsx:1000-1076): the loosely
typed value fields, the stage when present, the generated id, and the
date/area strings resolveCaptionText consumes. -/
structure SetCapEnv where
  text : Option String
  x : Option ℚ
  y : Option ℚ
  cx : Option ℚ
  cy : Option ℚ
  anchor : Option Anchor
  sizePct : Option ℚ
  color : Option String
  stroke : Option String
  weight : Option ℚ
  stage : Option StageEnv
  newId : String
  dateStr : Option String
  areaStr : Option String

/-- The JS truthiness of the optional caption text (value?.text). -/
def textTruthy : Option String → Bool
  | some t => !(t == "")
  | none => false

/-- What set_caption decides before building the caption record. -/
structure SetPlacement where
  x : ℚ
  y : ℚ
  anchor : Option Anchor
  sizePct : ℚ
  color : String
  stroke : Option String

/-- The pre-measurement values (App.tsx:1008-1012): explicit coordinates
are clamped at once; everything else falls back to the last caption. -/
def setCapBase (v : SetCapEnv) (last : Caption) : SetPlacement :=
  { x := match v.x with
      | some xv => clampNormalized xv (1/100)
      | none => match v.cx with
        | some cxv => clampNormalized cxv (1/100)
        | none => last.x,
    y := match v.y with
      | some yv => clampNormalized yv (1/100)
      | none => match v.cy with
        | some cyv => clampNormalized cyv (1/100)
        | none => last.y,
    anchor := match v.anchor with
      | some a => some a
      | none => last.anchor,
    sizePct := match v.sizePct with
      | some sp => sp
      | none => last.sizePct,
    color := match v.color with
      | some c => c
      | none => last.color,
    stroke := match v.stroke with
      | some st => some st
      | none => last.stroke }

/-- The measurement text: the beautified caption with tags replaced by
spaces (App.tsx:1016, 1019, 1030). -/
def setCapMText (v : SetCapEnv) : String :=
  stripTagsToSpace (resolveCaptionText v.dateStr v.areaStr
    (match v.text with | some t => t | none => ""))

/-- Adopt the optimizer's result when there is one (App.tsx:1020-1026). -/
def setCapOptWith (base : SetPlacement) : Option FBResult → SetPlacement
  | some best =>
    { x := best.x, y := best.y, anchor := some best.anchor, sizePct := best.sizePct,
      color := best.color, stroke := some best.stroke }
  | none => base

/-- The full-optimization path (App.tsx:1018-1026). -/
def setCapOpt (st : StageEnv) (v : SetCapEnv) (base : SetPlacement) : SetPlacement :=
  setCapOptWith base (findBestCaptionPlacement
    { bctx := st.bctx, sq := st.sq, ctxOk := st.regionCtxOk, img := st.img,
      text := setCapMText v, preferredAnchor := base.anchor.getD .tc,
      minPct := 3, maxPct := 8, marginPct := 1.5 })

/-- The deterministic path (App.tsx:1028-1053): measure and clamp, then
nudge away from busy regions and re-clamp, then pick contrasting colors. -/
def setCapDet (st : StageEnv) (v : SetCapEnv) (last : Caption) (base : SetPlacement) :
    SetPlacement :=
  let wjs : ℚ := match (match v.weight with
      | some w => some w
      | none => last.weight) with
    | some w => if w = 0 then 700 else w
    | none => 700
  let measured := measureAndPlaceCaption st.mctx
    { text := setCapMText v, preferredX := base.x, preferredY := base.y,
      preferredAnchor := base.anchor, preferredSizePct := some base.sizePct,
      weight := some wjs, marginPct := some 1.5,
      stageWidth := st.img.naturalWidth, stageHeight := st.img.naturalHeight }
  let fontScale := jmax st.img.naturalWidth st.img.naturalHeight
  let px := jmax 10 ((jsRound (measured.sizePct / 100 * fontScale) : ℤ) : ℚ)
  let tlen : ℚ := ((match v.text with | some t => t.length | none => 0) : ℕ)
  let approxW := jmin 0.9 (jmax 0.15 (tlen * (px * 0.6) / st.img.naturalWidth))
  let approxH := jmax 0.04 (px * 1.2 / st.img.naturalHeight)
  let rect := nudgeAwayFromDetail st.sq st.regionCtxOk st.img
    { x := clampNormalized measured.x (1/100) - approxW / 2,
      y := clampNormalized measured.y (1/100) - approxH / 2,
      w := approxW, h := approxH }
  let col := chooseCaptionColors (measureRegionDetail st.sq st.regionCtxOk st.img rect).mean
  { x := clampNormalized (rect.x + rect.w / 2) (1/100),
    y := clampNormalized (rect.y + rect.h / 2) (1/100),
    anchor := some measured.anchor, sizePct := measured.sizePct,
    color := col.1, stroke := some col.2 }

/-- The placement chosen by set_caption (App.tsx:1008-1054): the stage
and a non-empty text enable measurement; without explicit coordinates the
optimizer runs, else the deterministic path. -/
def setCaptionPlacement (v : SetCapEnv) (last : Caption) : SetPlacement :=
  let base := setCapBase v last
  match v.stage with
  | none => base
  | some st =>
    if st.img.naturalWidth ≠ 0 ∧ st.img.naturalHeight ≠ 0 ∧ textTruthy v.text = true then
      if v.x = none ∧ v.y = none ∧ v.cx = none ∧ v.cy = none then
        setCapOpt st v base
      else setCapDet st v last base
    else base

/-- The new caption record (App.tsx:1056-1066). -/
def setCaptionNewCaption (v : SetCapEnv) (last : Caption) : Caption :=
  let p := setCaptionPlacement v last
  { id := v.newId,
    text := match v.text with
      | some t => resolveCaptionText v.dateStr v.areaStr t
      | none => last.text,
    x := p.x, y := p.y, anchor := p.anchor, sizePct := p.sizePct,
    color := p.color, stroke := p.stroke,
    weight := match v.weight with | some w => some w | none => last.weight }

/-- The default the UI falls back to when no caption exists
(App.tsx:490-500). -/
def lastCaptionDefault : Caption :=
  { id := "initial", text := "", x := 1/2, y := 9/10, sizePct := 5,
    color := "#FFD400", stroke := some "#000000", weight := some 700, anchor := some .bc }

def lastCaption (s : CapState) : Caption := (s.captions.getLast?).getD lastCaptionDefault

/-- Every caption-mutating operation of the UI, carrying the external
data it consumes. -/
inductive CapOp where
  | pointerMove (rawNx rawNy : ℚ)
  | pointerUp
  | setCaption (v : SetCapEnv)
  | moveCaption (dx dy x y : Option ℚ) (anchor : Option Anchor)
  | styleCaption (sizePct : Option ℚ) (color stroke : Option String) (weight : Option ℚ)
  | editCaptionText (promptResult : Option String)
  | undo
  | redo
  | reset

/-- The operations' semantics, one case per handler:
pointerMove App.tsx:512-526, pointerUp 528-538, setCaption 1000-1076,
moveCaption (also suggest_position) 1077-1099, styleCaption 1100-1119,
editCaptionText 2190-2203, undo 2169-2171, redo 2180-2182,
reset 485-489. -/
def applyCapOp (s : CapState) : CapOp → CapState
  | .pointerMove rawNx rawNy =>
    match s.captions.getLast? with
    | none => s
    | some last =>
      { s with captions := s.captions.dropLast ++
          [{ last with x := clampNormalized rawNx (1/100),
                       y := clampNormalized rawNy (1/100) }] }
  | .pointerUp => commitCap s s.captions
  | .setCaption v =>
    let newCap := setCaptionNewCaption v (lastCaption s)
    commitCap s (if s.captions.isEmpty then [newCap] else s.captions.dropLast ++ [newCap])
  | .moveCaption dx dy xv yv anchor =>
    match s.captions.getLast? with
    | none => s
    | some last =>
      let nextX := match dx with
        | some d => clampNormalized (last.x + d) (1/100)
        | none => match xv with
          | some x2 => clampNormalized x2 (1/100)
          | none => last.x
      let nextY := match dy with
        | some d => clampNormalized (last.y + d) (1/100)
        | none => match yv with
          | some y2 => clampNormalized y2 (1/100)
          | none => last.y
      let nextAnchor := match anchor with | some a => some a | none => last.anchor
      commitCap s (s.captions.dropLast ++ [{ last with x := nextX, y := nextY, anchor := nextAnchor }])
  | .styleCaption sp color stroke weight =>
    match s.captions.getLast? with
    | none => s
    | some last =>
      commitCap s (s.captions.dropLast ++
        [{ last with
             sizePct := match sp with | some v2 => v2 | none => last.sizePct,
             color := match color with | some c => c | none => last.color,
             stroke := match stroke with | some st2 => some st2 | none => last.stroke,
             weight := match weight with | some w => some w | none => last.weight }])
  | .editCaptionText promptResult =>
    match s.captions.getLast? with
    | none => s
    | some last =>
      commitCap s (s.captions.dropLast ++
        [{ last with text := match promptResult with | some t => t | none => last.text }])
  | .undo => undoCap s
  | .redo => redoCap s
  | .reset => initCapState

def runCap (ops : List CapOp) : CapState := ops.foldl applyCapOp initCapState

/-- The fixed clamp band of the implicit global invariant. -/
def okXY (x y : ℚ) : Prop := 1/100 ≤ x ∧ x ≤ 99/100 ∧ 1/100 ≤ y ∧ y ≤ 99/100

def okCap (c : Caption) : Prop := okXY c.x c.y

def okState (s : CapState) : Prop :=
  (∀ c ∈ s.captions, okCap c) ∧ ∀ snap ∈ s.captionHistory, ∀ c ∈ snap, okCap c

lemma clamp01_bounds (v : ℚ) :
    1/100 ≤ clampNormalized v (1/100) ∧ clampNormalized v (1/100) ≤ 99/100 := by
  have h := clampNormalized_mem v (1/100) (by norm_num)
  exact ⟨h.1, by linarith [h.2]⟩

lemma okState_init : okState initCapState := by
  constructor
  · intro c hc
    exact absurd hc (List.not_mem_nil c)
  · intro snap hs c hc
    rw [initCapState] at hs
    rw [List.mem_singleton.mp hs] at hc
    exact absurd hc (List.not_mem_nil c)

lemma okState_commit (s : CapState) (snap : List Caption) (h : okState s)
    (hsnap : ∀ c ∈ snap, okCap c) : okState (commitCap s snap) := by
  refine ⟨hsnap, ?_⟩
  intro snap' hsnap' c hc
  rcases List.mem_append.mp hsnap' with h2 | h2
  · exact h.2 snap' (List.mem_of_mem_take h2) c hc
  · rw [List.mem_singleton.mp h2] at hc
    exact hsnap c hc

lemma okState_undo (s : CapState) (h : okState s) : okState (undoCap s) :=
  ⟨getD_pred (fun snap => ∀ c ∈ snap, okCap c)
    (fun c hc => absurd hc (List.not_mem_nil c)) h.2 _, h.2⟩

lemma okState_redo (s : CapState) (h : okState s) : okState (redoCap s) :=
  ⟨getD_pred (fun snap => ∀ c ∈ snap, okCap c)
    (fun c hc => absurd hc (List.not_mem_nil c)) h.2 _, h.2⟩

lemma okList_dropLast_append (l : List Caption) (u : Caption)
    (h : ∀ c ∈ l, okCap c) (hu : okCap u) : ∀ c ∈ l.dropLast ++ [u], okCap c := by
  intro c hc
  rcases List.mem_append.mp hc with h2 | h2
  · exact h c (List.dropLast_subset l h2)
  · rw [List.mem_singleton.mp h2]
    exact hu

lemma lastCaption_ok (s : CapState) (h : ∀ c ∈ s.captions, okCap c) :
    okCap (lastCaption s) := by
  rw [lastCaption]
  cases hL : s.captions.getLast? with
  | none =>
    refine ⟨?_, ?_, ?_, ?_⟩ <;> norm_num [lastCaptionDefault, Option.getD]
  | some last =>
    rw [Option.getD_some]
    exact h last (List.mem_of_mem_getLast? hL)

lemma fbXs_bounds {q : ℚ} (h : q ∈ fbXs) : 1/100 ≤ q ∧ q ≤ 99/100 := by
  fin_cases h <;> constructor <;> norm_num

lemma fbYs_bounds {q : ℚ} (h : q ∈ fbYs) : 1/100 ≤ q ∧ q ≤ 99/100 := by
  fin_cases h <;> constructor <;> norm_num

lemma baseCoord_bounds (o1 o2 : Option ℚ) (fallback : ℚ)
    (hf : 1/100 ≤ fallback ∧ fallback ≤ 99/100) :
    1/100 ≤ (match o1 with
      | some v => clampNormalized v (1/100)
      | none => match o2 with
        | some v => clampNormalized v (1/100)
        | none => fallback) ∧
    (match o1 with
      | some v => clampNormalized v (1/100)
      | none => match o2 with
        | some v => clampNormalized v (1/100)
        | none => fallback) ≤ 99/100 := by
  cases o1 with
  | some v => exact clamp01_bounds v
  | none =>
    cases o2 with
    | some v => exact clamp01_bounds v
    | none => exact hf

lemma setCapBase_ok (v : SetCapEnv) (last : Caption) (hlast : okCap last) :
    okXY (setCapBase v last).x (setCapBase v last).y := by
  obtain ⟨h1, h2, h3, h4⟩ := hlast
  have hx := baseCoord_bounds v.x v.cx last.x ⟨h1, h2⟩
  have hy := baseCoord_bounds v.y v.cy last.y ⟨h3, h4⟩
  exact ⟨hx.1, hx.2, hy.1, hy.2⟩

lemma setCapOptWith_ok (base : SetPlacement) (o : Option FBResult)
    (hbase : okXY base.x base.y)
    (ho : ∀ best, o = some best → best.x ∈ fbXs ∧ best.y ∈ fbYs) :
    okXY (setCapOptWith base o).x (setCapOptWith base o).y := by
  cases o with
  | none => exact hbase
  | some best =>
    have hxy := ho best rfl
    have hx := fbXs_bounds hxy.1
    have hy := fbYs_bounds hxy.2
    exact ⟨hx.1, hx.2, hy.1, hy.2⟩

lemma setCapOpt_ok (st : StageEnv) (v : SetCapEnv) (base : SetPlacement)
    (hbase : okXY base.x base.y) :
    okXY (setCapOpt st v base).x (setCapOpt st v base).y := by
  refine setCapOptWith_ok base _ hbase ?_
  intro best hbest
  exact findBest_some_xy _ best hbest

lemma setCapDet_ok (st : StageEnv) (v : SetCapEnv) (last : Caption) (base : SetPlacement) :
    okXY (setCapDet st v last base).x (setCapDet st v last base).y :=
  ⟨(clamp01_bounds _).1, (clamp01_bounds _).2, (clamp01_bounds _).1, (clamp01_bounds _).2⟩

lemma setCaptionPlacement_ok (v : SetCapEnv) (last : Caption) (hlast : okCap last) :
    okXY (setCaptionPlacement v last).x (setCaptionPlacement v last).y := by
  have hbase := setCapBase_ok v last hlast
  rw [setCaptionPlacement]
  cases v.stage with
  | none => exact hbase
  | some st =>
    dsimp only
    split
    · split
      · exact setCapOpt_ok st v (setCapBase v last) hbase
      · exact setCapDet_ok st v last (setCapBase v last)
    · exact hbase

lemma setCaptionNewCaption_ok (v : SetCapEnv) (last : Caption) (hlast : okCap last) :
    okCap (setCaptionNewCaption v last) :=
  setCaptionPlacement_ok v last hlast

lemma moveCoord_bounds (dOpt vOpt : Option ℚ) (lastv : ℚ)
    (hl : 1/100 ≤ lastv ∧ lastv ≤ 99/100) :
    1/100 ≤ (match dOpt with
      | some d => clampNormalized (lastv + d) (1/100)
      | none => match vOpt with
        | some x2 => clampNormalized x2 (1/100)
        | none => lastv) ∧
    (match dOpt with
      | some d => clampNormalized (lastv + d) (1/100)
      | none => match vOpt with
        | some x2 => clampNormalized x2 (1/100)
        | none => lastv) ≤ 99/100 := by
  cases dOpt with
  | some d => exact clamp01_bounds (lastv + d)
  | none =>
    cases vOpt with
    | some x2 => exact clamp01_bounds x2
    | none => exact hl

lemma okState_apply (s : CapState) (op : CapOp) (h : okState s) :
    okState (applyCapOp s op) := by
  cases op with
  | pointerMove nx ny =>
    cases hL : s.captions.getLast? with
    | none => simpa only [applyCapOp, hL] using h
    | some last =>
      simp only [applyCapOp, hL]
      refine ⟨?_, h.2⟩
      apply okList_dropLast_append _ _ h.1
      exact ⟨(clamp01_bounds nx).1, (clamp01_bounds nx).2,
             (clamp01_bounds ny).1, (clamp01_bounds ny).2⟩
  | pointerUp => exact okState_commit s s.captions h h.1
  | setCaption v =>
    have hnew := setCaptionNewCaption_ok v (lastCaption s) (lastCaption_ok s h.1)
    apply okState_commit s _ h
    split
    · intro c hc
      rw [List.mem_singleton.mp hc]
      exact hnew
    · exact okList_dropLast_append _ _ h.1 hnew
  | moveCaption dx dy xv yv anchor =>
    cases hL : s.captions.getLast? with
    | none => simpa only [applyCapOp, hL] using h
    | some last =>
      have hlast := h.1 last (List.mem_of_mem_getLast? hL)
      obtain ⟨h1, h2, h3, h4⟩ := hlast
      have hx := moveCoord_bounds dx xv last.x ⟨h1, h2⟩
      have hy := moveCoord_bounds dy yv last.y ⟨h3, h4⟩
      simp only [applyCapOp, hL]
      apply okState_commit s _ h
      apply okList_dropLast_append _ _ h.1
      exact ⟨hx.1, hx.2, hy.1, hy.2⟩
  | styleCaption sp color stroke weight =>
    cases hL : s.captions.getLast? with
    | none => simpa only [applyCapOp, hL] using h
    | some last =>
      have hlast := h.1 last (List.mem_of_mem_getLast? hL)
      simp only [applyCapOp, hL]
      apply okState_commit s _ h
      apply okList_dropLast_append _ _ h.1
      exact hlast
  | editCaptionText promptResult =>
    cases hL : s.captions.getLast? with
    | none => simpa only [applyCapOp, hL] using h
    | some last =>
      have hlast := h.1 last (List.mem_of_mem_getLast? hL)
      simp only [applyCapOp, hL]
      apply okState_commit s _ h
      apply okList_dropLast_append _ _ h.1
      exact hlast
  | undo => exact okState_undo s h
  | redo => exact okState_redo s h
  | reset => exact okState_init

lemma okState_run (ops : List CapOp) : okState (runCap ops) := by
  rw [runCap]
  have hstep : ∀ s, okState s → okState (ops.foldl applyCapOp s) := by
    induction ops with
    | nil => exact fun s h => h
    | cons op rest ih =>
      intro s h
      rw [List.foldl_cons]
      exact ih _ (okState_apply s op h)
  exact hstep initCapState okState_init

/-- Claim C10 (implicit): every operation that writes caption coordinates
— pointer drag, move_caption and suggest_position in both delta and
absolute form, and set_caption — clamps the resulting x and y with the
fixed bound 0.01, so every caption in the live array always satisfies
0.01 le x le 0.99 and 0.01 le y le 0.99, for any operation sequence,
oracles and inputs, independent of any per-request marginPct. -/
theorem C10_fixed_clamp_invariant (ops : List CapOp) :
    ((runCap ops).captions.all fun c =>
      decide (1/100 ≤ c.x ∧ c.x ≤ 99/100 ∧ 1/100 ≤ c.y ∧ c.y ≤ 99/100)) = true := by
  rw [List.all_eq_true]
  intro c hc
  exact decide_eq_true ((okState_run ops).1 c hc)

end PhotoTagger
